import Mathlib

/-!
Verification of the sentineldns streaming aggregation and monitoring engine.

This file gives a shallow embedding of the core of the repository:

* `src/sentineldns/features/window_features.py` — the window aggregator
  (`aggregate_events_to_windows`), the periodicity estimate
  (`periodicity_score`) and the bounded seen-domain history
  (`deque(maxlen=50_000)` paired with a membership `set`).
* `src/sentineldns/data/live_monitor.py` — the monitor loop
  (`run_live_monitor`), the tailing reader (`_read_new_jsonl`), the privacy
  filter (`should_exclude_domain`, `redact_domain`) and the retention purger
  (`purge_old_rows_csv`).

Modelling conventions:

* ISO-8601 timestamp strings of a uniform format are order-isomorphic to the
  instants they denote, so a successfully parsed timestamp is represented by a
  natural number; `datetime.fromisoformat` on it is the identity.  A timestamp
  string that `datetime.fromisoformat` rejects is represented explicitly (the
  `TS.junk` constructor below), since the monitor loop lets such strings reach
  the aggregator.
* Python float statistics are modelled over `ℚ` (exact real-number readings of
  the numpy expressions).
* `hashlib.sha256(...).hexdigest()` is a Python standard-library primitive and
  is abstracted as a function parameter `sha256hex : String → String`.
* Python dicts/sets are modelled as association lists / duplicate-free lists,
  with the exact insertion and removal pattern of the source.  Iteration order
  of the Python set `unique_domains` is modelled as a fixed deduplication
  order; every fact proved below is independent of that order.
* Byte offsets into UTF-8 files are modelled as character offsets (the inputs
  concerned are ASCII).
-/

namespace SentinelDNS

/-- One event record as consumed by `aggregate_events_to_windows`
(`window_features.py`): a parsed timestamp, a domain and a response code. -/
structure Event where
  ts : Nat
  domain : String
  rcode : String
  deriving DecidableEq, Repr

/-- WindowStats (`window_features.py` lines 10-20), with float fields read
over `ℚ`. -/
structure WindowStats where
  window_start : Nat
  window_end : Nat
  queries_per_min : ℚ
  unique_domains : Nat
  nxdomain_rate : ℚ
  mean_domain_risk : ℚ
  high_risk_domain_ratio : ℚ
  newly_seen_ratio : ℚ
  periodicity_score : ℚ
  deriving DecidableEq, Repr

/-- Largest element of a list of rationals (`np.max` on a non-empty array;
0 as a don't-care value on the empty list, which the source never reaches). -/
def listMax : List ℚ → ℚ
  | [] => 0
  | x :: xs => xs.foldl max x

/-- Dot product of a series with its shift by `k` — lag-`k` entry of
`np.correlate(arr, arr, mode="full")[arr.size - 1 :]`. -/
def lagDot (arr : List ℚ) (k : Nat) : ℚ :=
  ((arr.zip (arr.drop k)).map (fun p => p.1 * p.2)).sum

/-- Non-negative-lag autocorrelation sequence of `arr`
(`np.correlate(arr, arr, mode="full")[arr.size - 1 :]`). -/
def autocorr (arr : List ℚ) : List ℚ :=
  (List.range arr.length).map (lagDot arr)

/-- Absolute tolerance of `np.allclose(arr, 0)`: `|x - 0| <= atol + rtol*|0|`
with the numpy defaults `atol = 1e-8`, `rtol = 1e-5`. -/
def allcloseAtol : ℚ := 1 / 100000000

/-- Stabiliser `1e-9` added to the autocorrelation baseline. -/
def baselineEps : ℚ := 1 / 1000000000

/-- Model of `periodicity_score` (`window_features.py` lines 23-35): demean
the series, autocorrelate, and return the peak-to-mean-absolute ratio over
non-zero lags, lower-bounded at 0. -/
def periodicity_score (values : List ℚ) : ℚ :=
  if values.length < 4 then 0
  else
    let m := values.sum / (values.length : ℚ)
    let arr := values.map (fun v => v - m)
    if arr.all (fun x => |x| ≤ allcloseAtol) then 0
    else
      let corr := autocorr arr
      if corr.length < 3 then 0
      else
        let nz := corr.drop 1
        let baseline := (nz.map (fun c => |c|)).sum / (nz.length : ℚ) + baselineEps
        let peak := listMax nz
        max 0 (peak / baseline)

/-- Capacity of the seen-domain history: `deque(maxlen=50_000)`
(`window_features.py` line 46). -/
def seenCapacity : Nat := 50000

/-- The cross-window novelty state: the FIFO `seen_history` (head = oldest)
paired with the membership set `seen_set`, modelled as a list kept
duplicate-free by the insertion discipline of the source. -/
structure SeenState where
  history : List String
  seenSet : List String
  deriving DecidableEq, Repr

/-- Appending to a `deque` with `maxlen = cap`: when full, the oldest (head)
entry is silently discarded. -/
def pushMax (cap : Nat) (q : List String) (x : String) : List String :=
  if q.length = cap then q.tail ++ [x] else q ++ [x]

/-- The per-window novelty loop (`window_features.py` lines 66-71): for each
unique domain of the window not yet in `seen_set`, count it, add it to the
set and append it to the FIFO. -/
def processNewDomains (cap : Nat) : SeenState → List String → Nat × SeenState
  | st, [] => (0, st)
  | st, d :: ds =>
    if d ∈ st.seenSet then processNewDomains cap st ds
    else
      let r := processNewDomains cap ⟨pushMax cap st.history d, st.seenSet ++ [d]⟩ ds
      (r.1 + 1, r.2)

/-- The post-window set trim (`window_features.py` lines 72-75): when the
FIFO is full, remove its current head from `seen_set` if present. -/
def evictIfFull (cap : Nat) (st : SeenState) : SeenState :=
  if st.history.length = cap then
    match st.history with
    | [] => st
    | oldest :: _ => { st with seenSet := st.seenSet.erase oldest }
  else st

/-- The complete seen-history update performed for one window: the novelty
loop followed by the set trim. -/
def seenStep (cap : Nat) (st : SeenState) (ds : List String) : SeenState :=
  evictIfFull cap (processNewDomains cap st ds).2

/-- The bucket-forming loop of `aggregate_events_to_windows`
(`window_features.py` lines 50-58) on a sorted event list: open a window at
the first unconsumed event's timestamp `t`, consume every following event
with timestamp `< t + L`, recurse on the rest.  (For `L = 0` the source
loops forever; this total model is its restriction to `L ≥ 1`, where the
opening event always lands in its own bucket.) -/
def windowBuckets (L : Nat) : List Event → List (List Event)
  | [] => []
  | e :: rest =>
    (e :: rest.takeWhile (fun x => decide (x.ts < e.ts + L))) ::
      windowBuckets L (rest.dropWhile (fun x => decide (x.ts < e.ts + L)))
termination_by l => l.length
decreasing_by
  simp only [List.length_cons]
  exact Nat.lt_succ_of_le (List.dropWhile_sublist _).length_le

/-- Timestamp opening a bucket (the bucket is never empty in the source). -/
def bucketStart (b : List Event) : Nat := ((b.head?).map Event.ts).getD 0

/-- Per-window statistics (`window_features.py` lines 60-89), together with
the updated seen-history state.  `periodicity_score` is filled with 0 here
and broadcast later, exactly as in the source. -/
def windowStatsOf (cap L : Nat) (scores : String → ℚ) (b : List Event)
    (st : SeenState) : WindowStats × SeenState :=
  let start := bucketStart b
  let domains := b.map Event.domain
  let uniq := domains.dedup
  let nx := (b.filter (fun e => e.rcode == "NXDOMAIN")).length
  let risks := domains.map scores
  let high := (risks.filter (fun s => decide (70 < s))).length
  let newly := (processNewDomains cap st uniq).1
  (⟨start, start + L,
    (b.length : ℚ) / (L : ℚ),
    uniq.length,
    (nx : ℚ) / (max b.length 1 : ℚ),
    (if risks.isEmpty then 0 else risks.sum / (risks.length : ℚ)),
    (high : ℚ) / (max risks.length 1 : ℚ),
    (newly : ℚ) / (max uniq.length 1 : ℚ),
    0⟩,
   seenStep cap st uniq)

/-- Statistics pass over the buckets, threading the seen-history state. -/
def statsPass (cap L : Nat) (scores : String → ℚ) :
    List (List Event) → SeenState → List WindowStats
  | [], _ => []
  | b :: bs, st =>
    (windowStatsOf cap L scores b st).1 ::
      statsPass cap L scores bs (windowStatsOf cap L scores b st).2

/-- Sort of the events by timestamp (`sorted(events, key=lambda e: e["ts"])`).
Python's `sorted` is a stable mergesort; it is modelled by a stable insertion
sort, which produces the identical list, and every statistic computed below
is in any case invariant under the order of equal-timestamp events. -/
def sortEvents (events : List Event) : List Event :=
  List.insertionSort (fun a b => a.ts ≤ b.ts) events

/-- Model of `aggregate_events_to_windows` (`window_features.py` lines
38-95): sort, bucket into event-driven windows of `L` minutes, compute the
per-window statistics with a fresh seen-history, then broadcast the single
batch periodicity score to every window. -/
def aggregate_events_to_windows (scores : String → ℚ) (window_minutes : Nat)
    (events : List Event) : List WindowStats :=
  if events.isEmpty then []
  else
    let ws := statsPass seenCapacity window_minutes scores
      (windowBuckets window_minutes (sortEvents events)) ⟨[], []⟩
    let p := periodicity_score (ws.map WindowStats.queries_per_min)
    ws.map (fun w => { w with periodicity_score := p })

/-! Privacy filter (`live_monitor.py` lines 27-37).  `fnmatch.fnmatch` on
POSIX applies `os.path.normcase`, which is the identity, and then matches the
whole name against the glob pattern with `*`, `?` and `[...]` /`[!...]`
character classes (a `]` immediately after `[` or `[!` is a literal member,
an unterminated `[` is a literal character, and an inverted range such as
`z-a` matches nothing). -/

/-- Splitting a class body at its terminating `]`; `none` when the bracket is
unterminated. -/
def splitClass : List Char → Option (List Char × List Char)
  | [] => none
  | c :: rest =>
    if c = ']' then some ([], rest)
    else (splitClass rest).map (fun p => (c :: p.1, p.2))

/-- Negation flag of a bracket expression (a leading `!`). -/
def classNeg : List Char → Bool × List Char
  | '!' :: t => (true, t)
  | t => (false, t)

/-- Literal `]` member: a `]` immediately after `[` or `[!` belongs to the
class body. -/
def classPre : List Char → List Char × List Char
  | ']' :: t => ([']'], t)
  | t => ([], t)

/-- Parse of the bracket expression that follows a `[`: returns the negation
flag, the class body, and the pattern remainder after the closing `]`
(`none` when the bracket is unterminated, in which case `[` is literal). -/
def parseClass (ps : List Char) : Option (Bool × List Char × List Char) :=
  (splitClass (classPre (classNeg ps).2).2).map
    (fun p => ((classNeg ps).1, (classPre (classNeg ps).2).1 ++ p.1, p.2))

/-- Membership of a character in a class body, with `x-y` ranges (a leading
or trailing `-` is a literal member; an empty range matches nothing). -/
def classMatch (c : Char) : List Char → Bool
  | x :: '-' :: y :: rest => (decide (x ≤ c) && decide (c ≤ y)) || classMatch c rest
  | x :: rest => (c == x) || classMatch c rest
  | [] => false

/-- Disjunction of `f` over every suffix of `s`: the backtracking search a
`*` wildcard performs. -/
def matchStar (f : List Char → Bool) : List Char → Bool
  | [] => f []
  | c :: s => f (c :: s) || matchStar f s

/-- Fuelled glob matcher; the fuel only decreases when pattern characters
are consumed, so any fuel exceeding the pattern length is sufficient. -/
def globMatchF : Nat → List Char → List Char → Bool
  | 0, _, _ => false
  | fuel + 1, pat, s =>
    match pat with
    | [] => s.isEmpty
    | '*' :: ps => matchStar (globMatchF fuel ps) s
    | '?' :: ps =>
      (match s with
       | [] => false
       | _ :: s' => globMatchF fuel ps s')
    | '[' :: ps =>
      (match parseClass ps with
       | none =>
         (match s with
          | [] => false
          | c :: s' => (c == '[') && globMatchF fuel ps s')
       | some (neg, body, rest) =>
         (match s with
          | [] => false
          | c :: s' =>
            (if neg then !(classMatch c body) else classMatch c body) &&
              globMatchF fuel rest s'))
    | p :: ps =>
      (match s with
       | [] => false
       | c :: s' => (c == p) && globMatchF fuel ps s')

/-- Model of the glob matching performed by `fnmatch.fnmatch(name, pattern)`
(whole-string match, POSIX case behaviour).  A bracket-expression remainder
is always shorter than the pattern consumed, so `pattern length + 1` fuel
always suffices. -/
def globMatch (p s : List Char) : Bool := globMatchF (p.length + 1) p s

/-- Model of `fnmatch.fnmatch(name, pattern)` as called by
`should_exclude_domain`. -/
def fnmatch (name pattern : String) : Bool :=
  globMatch pattern.data name.data

/-- Model of `should_exclude_domain` (`live_monitor.py` lines 27-30). -/
def should_exclude_domain (domain : String) (exclude_patterns : Option (List String)) : Bool :=
  match exclude_patterns with
  | none => false
  | some patterns => patterns.any (fun pattern => fnmatch domain pattern)

/-- Python `str.strip()` on a character list: drop whitespace from both
ends. -/
def stripCh (cs : List Char) : List Char :=
  ((cs.dropWhile Char.isWhitespace).reverse.dropWhile Char.isWhitespace).reverse

/-- The domain normalisation `str(event.get("domain", "")).strip().lower()`
performed by the monitor loop (`live_monitor.py` line 116). -/
def normalizeDomain (s : String) : String :=
  String.mk ((stripCh s.data).map Char.toLower)

/-- First `n` characters of a string (`digest[:20]` on an ASCII hex
digest). -/
def takeStr (n : Nat) (s : String) : String :=
  String.mk (s.data.take n)

/-- Model of `redact_domain` (`live_monitor.py` lines 33-37).  The standard
library primitive `hashlib.sha256(...).hexdigest()` is abstracted as the
function parameter `sha256hex`. -/
def redact_domain (sha256hex : String → String) (domain : String)
    (hash_domains : Bool) (hash_salt : String) : String :=
  if !hash_domains then domain
  else "sha256:" ++ takeStr 20 (sha256hex (hash_salt ++ ":" ++ domain))

/-- A timestamp field value: either a string `datetime.fromisoformat`
accepts, represented by the instant it denotes, or a string it rejects,
carried verbatim.  A missing field is `junk ""` (the monitor reads it with
default `""`). -/
inductive TS where
  | valid (t : Nat)
  | junk (s : String)
  deriving DecidableEq, Repr

/-- Whether the raw timestamp string is empty (the `if not ts` test). -/
def TS.isEmptyStr : TS → Bool
  | .valid _ => false
  | .junk s => s == ""

/-- Model of `datetime.fromisoformat` on a timestamp field: `none` models a
raised `ValueError`. -/
def TS.fromiso : TS → Option Nat
  | .valid t => some t
  | .junk _ => none

/-- One JSON object line as returned by `_read_new_jsonl`: the fields the
monitor reads, each possibly missing. -/
structure Rec where
  domain : Option String
  ts : Option TS
  rcode : Option String
  qtype : Option String
  deriving DecidableEq, Repr

/-- Result of the domain-scoring collaborator `score_domain`. -/
structure DomainVerdict where
  risk_score : ℚ
  risk_label : String
  reason_tags : List String
  deriving DecidableEq, Repr

/-- Result of the window-scoring collaborator `score_window`. -/
structure WindowVerdict where
  anomaly_score : ℚ
  anomaly_label : String
  reason_tags : List String
  deriving DecidableEq, Repr

/-- Result of the explanation collaborator `explain_anomaly_result`. -/
structure Explained where
  summary : String
  recommended_action : String
  deriving DecidableEq, Repr

/-- The external collaborators of the monitor loop (pure functions of their
inputs, per the loaded model bundles), plus the `hashlib` primitive. -/
structure Collaborators where
  score_domain : String → DomainVerdict
  score_window : WindowStats → WindowVerdict
  explain : ℚ → List String → ℚ → ℚ → Explained
  sha256hex : String → String

/-- Model of `LivePrivacyConfig` (`live_monitor.py` lines 19-24). -/
structure LivePrivacyConfig where
  hash_domains : Bool
  hash_salt : String
  exclude_patterns : Option (List String)
  retention_days : Int
  deriving DecidableEq, Repr

/-- One row appended to the durable scored-event store `output_csv`
(`live_monitor.py` lines 128-136). -/
structure CsvRow where
  ts : TS
  domain : String
  rcode : String
  qtype : String
  risk_score : ℚ
  risk_label : String
  reason_tags : String
  deriving DecidableEq, Repr

/-- One entry of the in-memory `scored_events` list (`live_monitor.py`
lines 150-157). -/
structure ScoredEvent where
  ts : TS
  domain : String
  rcode : String
  score : ℚ
  deriving DecidableEq, Repr

/-- Python `"|".join(tags)`. -/
def joinBar : List String → String
  | [] => ""
  | x :: xs => xs.foldl (fun a b => a ++ "|" ++ b) x

/-- The per-event body of the monitor loop (`live_monitor.py` lines
115-157): normalise the domain, drop empty domain/timestamp records, drop
excluded domains, score, and build both the persisted row (redacted domain)
and the in-memory entry (original domain). -/
def processRecord (C : Collaborators) (privacy : LivePrivacyConfig) (event : Rec) :
    Option (CsvRow × ScoredEvent) :=
  let domain := normalizeDomain (event.domain.getD "")
  let ts := event.ts.getD (TS.junk "")
  if domain == "" || ts.isEmptyStr then none
  else if should_exclude_domain domain privacy.exclude_patterns then none
  else
    let scored := C.score_domain domain
    let display_domain := redact_domain C.sha256hex domain privacy.hash_domains privacy.hash_salt
    let rcode := event.rcode.getD "NOERROR"
    some
      ({ ts := ts, domain := display_domain, rcode := rcode,
         qtype := event.qtype.getD "A", risk_score := scored.risk_score,
         risk_label := scored.risk_label, reason_tags := joinBar scored.reason_tags },
       { ts := ts, domain := domain, rcode := rcode, score := scored.risk_score })

/-- The dict comprehension `{item["domain"]: item["score"] for item in
scored_events}` read through `.get(domain, 0.0)`: the last entry for a
domain wins, absent domains score 0. -/
def domainScores (l : List ScoredEvent) : String → ℚ :=
  fun d =>
    match l.reverse.find? (fun e => e.domain == d) with
    | some e => e.score
    | none => 0

/-- Conversion of the accumulated `scored_events` to aggregator events:
`none` models the `ValueError` that `datetime.fromisoformat` raises inside
`aggregate_events_to_windows` when any accumulated timestamp string is
unparsable. -/
def toEvents (l : List ScoredEvent) : Option (List Event) :=
  l.mapM (fun e =>
    match e.ts with
    | .valid t => some { ts := t, domain := e.domain, rcode := e.rcode }
    | .junk _ => none)

/-- One row appended to the durable alert store `alerts_csv`
(`live_monitor.py` lines 177-185). -/
structure AlertRow where
  window_start : Nat
  window_end : Nat
  anomaly_score : ℚ
  anomaly_label : String
  reason_tags : String
  summary : String
  recommended_action : String
  deriving DecidableEq, Repr

/-- The alert row built for one newly closed window (`live_monitor.py`
lines 170-185): the window-scoring collaborator's verdict plus the
explanation text. -/
def emitRow (C : Collaborators) (w : WindowStats) : AlertRow :=
  let result := C.score_window w
  let explained := C.explain result.anomaly_score result.reason_tags
    w.queries_per_min w.nxdomain_rate
  { window_start := w.window_start, window_end := w.window_end,
    anomaly_score := result.anomaly_score, anomaly_label := result.anomaly_label,
    reason_tags := joinBar result.reason_tags, summary := explained.summary,
    recommended_action := explained.recommended_action }

/-- The window-emission loop (`live_monitor.py` lines 167-199): score and
append a row only for windows whose `window_end` is not yet in the
`emitted_windows` membership set, then add it. -/
def emitWindows (C : Collaborators) (acc : List Nat × List AlertRow)
    (ws : List WindowStats) : List Nat × List AlertRow :=
  ws.foldl
    (fun acc w =>
      if w.window_end ∈ acc.1 then acc
      else (acc.1 ++ [w.window_end], acc.2 ++ [emitRow C w]))
    acc

/-- The cross-cycle state of one monitoring session: the in-memory scored
event list, the emitted-window membership set, and the two append-only
stores (retention purging of the stores is modelled separately by
`purge_old_rows_csv`). -/
structure MonState where
  scored_events : List ScoredEvent
  emitted_windows : List Nat
  output_rows : List CsvRow
  alert_rows : List AlertRow
  deriving DecidableEq, Repr

/-- Session-start state of `run_live_monitor`. -/
def initState : MonState := ⟨[], [], [], []⟩

/-- One poll cycle of `run_live_monitor` (`live_monitor.py` lines 112-207)
on the records returned by the tailing reader: when nothing new arrived the
cycle is a no-op; otherwise process each record, re-aggregate the full
accumulated event list, and emit not-yet-emitted windows.  `Except.error`
models an uncaught `ValueError` aborting the process. -/
def runCycle (C : Collaborators) (privacy : LivePrivacyConfig)
    (window_minutes : Nat) (st : MonState) (new_events : List Rec) :
    Except String MonState :=
  if new_events.isEmpty then .ok st
  else
    let processed := new_events.filterMap (processRecord C privacy)
    let output_rows := st.output_rows ++ processed.map Prod.fst
    let scored_events := st.scored_events ++ processed.map Prod.snd
    match toEvents scored_events with
    | none => .error "ValueError: invalid isoformat string"
    | some events =>
      let windows := aggregate_events_to_windows (domainScores scored_events)
        window_minutes events
      let ea := emitWindows C (st.emitted_windows, st.alert_rows) windows
      .ok { scored_events := scored_events, emitted_windows := ea.1,
            output_rows := output_rows, alert_rows := ea.2 }

/-- A whole monitoring session over a sequence of polls (each poll is the
record batch the tailing reader returned for that cycle). -/
def runMonitor (C : Collaborators) (privacy : LivePrivacyConfig)
    (window_minutes : Nat) (polls : List (List Rec)) : Except String MonState :=
  polls.foldlM (runCycle C privacy window_minutes) initState

/-- State extraction from a successful run (used to name concrete session
results). -/
def okState : Except String MonState → MonState
  | .ok s => s
  | .error _ => initState

/-- The window statistics determined by an accumulated session state: what
the final re-aggregation pass of the session computes. -/
def sessionWindows (window_minutes : Nat) (st : MonState) : Option (List WindowStats) :=
  (toEvents st.scored_events).map
    (aggregate_events_to_windows (domainScores st.scored_events) window_minutes)

/-- Line splitting of the portion of the file past the seek offset. -/
def splitLinesCh : List Char → List (List Char)
  | [] => [[]]
  | c :: cs =>
    if c = '\n' then [] :: splitLinesCh cs
    else
      match splitLinesCh cs with
      | [] => [[c]]
      | l :: ls => (c :: l) :: ls

/-- Model of `_read_new_jsonl` (`live_monitor.py` lines 40-57): seek to
`offset_bytes` (a seek past end-of-file reads nothing and `tell()` keeps the
given position), parse each non-blank line, skip lines that fail to parse as
a JSON object (`jsonParse` returns `none`), and return the new offset.
Offsets count characters (the inputs concerned are ASCII). -/
def readNewJsonl (jsonParse : String → Option Rec) (file : Option String)
    (offset_bytes : Nat) : List Rec × Nat :=
  match file with
  | none => ([], offset_bytes)
  | some content =>
    let lines := splitLinesCh (content.data.drop offset_bytes)
    let events := lines.filterMap (fun l =>
      let l' := stripCh l
      if l'.isEmpty then none else jsonParse (String.mk l'))
    (events, max offset_bytes content.data.length)

/-- A CSV result store: the header (column order) and the data rows, each
row an association list from column name to cell text. -/
structure CsvFile where
  fieldnames : List String
  rows : List (List (String × String))
  deriving DecidableEq, Repr

/-- Python `row.get(col, "")` on a CSV row. -/
def rowGet (row : List (String × String)) (col : String) : String :=
  ((row.find? (fun kv => kv.1 == col)).map Prod.snd).getD ""

/-- Seconds per day (`timedelta(days=retention_days)` with instants measured
in seconds). -/
def secondsPerDay : Int := 86400

/-- Model of `purge_old_rows_csv` (`live_monitor.py` lines 70-92): a missing
store or a non-positive retention changes nothing; otherwise the store is
rewritten with the same header, keeping exactly the rows whose timestamp
cell fails to parse (`fromiso` returns `none`, modelling the caught
`ValueError`) or parses to an instant at or after `now - retention_days`
days.  A store whose header is missing is rewritten empty, as in the source.
`datetime.fromisoformat` and `datetime.now()` are abstracted as the
parameters `fromiso` and `now` over instants in seconds. -/
def purge_old_rows_csv (fromiso : String → Option Int) (now : Int)
    (file : Option CsvFile) (timestamp_col : String) (retention_days : Int) :
    Option CsvFile :=
  match file with
  | none => none
  | some f =>
    if retention_days ≤ 0 then some f
    else
      let cutoff := now - retention_days * secondsPerDay
      let kept := f.rows.filter (fun row =>
        match fromiso (rowGet row timestamp_col) with
        | none => true
        | some ts => cutoff ≤ ts)
      if f.fieldnames.isEmpty then some ⟨[], []⟩
      else some ⟨f.fieldnames, kept⟩

/-- Distinct domain names for concrete seen-history runs: `nm i` is the
string of `i` letters `a`. -/
def nm (i : Nat) : String :=
  String.mk (List.replicate i 'a')

/-- Domain-name block `nm a, nm (a+1), ..., nm (a+b-1)`. -/
def dseq (a b : Nat) : List String :=
  (List.range' a b).map nm

/-- A concrete collaborator instantiation for concrete session runs:
constant verdicts and a fixed digest text. -/
def trivCollab : Collaborators where
  score_domain := fun _ => ⟨50, "Normal", ["len"]⟩
  score_window := fun _ => ⟨0, "Normal", []⟩
  explain := fun _ _ _ _ => ⟨"s", "a"⟩
  sha256hex := fun _ => "0123456789abcdef0123456789abcdef"

/-- The default privacy configuration of the source. -/
def defaultPrivacy : LivePrivacyConfig := ⟨false, "sentineldns-local", none, 14⟩

/-- A well-formed input record at instant `t` for domain `d`. -/
def sampleRec (t : Nat) (d : String) : Rec :=
  ⟨some d, some (TS.valid t), some "NOERROR", some "A"⟩

/-- A record whose JSON object parses but whose `ts` string is not a valid
ISO-8601 timestamp. -/
def junkRec : Rec := ⟨some "a.com", some (TS.junk "garbage"), none, none⟩

/-! ## Aggregator bucket lemmas -/

theorem dropWhile_cons_head_false {α : Type} (p : α → Bool) :
    ∀ (l : List α) {x : α} {xs : List α}, l.dropWhile p = x :: xs → p x = false := by
  intro l
  induction l with
  | nil => intro x xs h; simp [List.dropWhile] at h
  | cons a t ih =>
    intro x xs h
    rw [List.dropWhile_cons] at h
    split at h
    · exact ih h
    · cases h
      simp_all

theorem windowBuckets_flatten (L : Nat) (l : List Event) :
    (windowBuckets L l).flatten = l := by
  induction l using windowBuckets.induct L with
  | case1 => simp [windowBuckets]
  | case2 e rest ih =>
    rw [windowBuckets]
    simp only [List.flatten_cons, ih, List.cons_append]
    rw [List.takeWhile_append_dropWhile]

theorem windowBuckets_mem_mem {L : Nat} {l b : List Event}
    (hb : b ∈ windowBuckets L l) : ∀ x ∈ b, x ∈ l := by
  intro x hx
  rw [← windowBuckets_flatten L l]
  exact List.mem_flatten.mpr ⟨b, hb, hx⟩

theorem windowBuckets_ne_nil {L : Nat} {l b : List Event}
    (hb : b ∈ windowBuckets L l) : b ≠ [] := by
  induction l using windowBuckets.induct L with
  | case1 => simp [windowBuckets] at hb
  | case2 e rest ih =>
    rw [windowBuckets] at hb
    rcases List.mem_cons.mp hb with h | h
    · subst h; simp
    · exact ih h

theorem sorted_dropWhile_ge (t : Nat) (l : List Event)
    (hs : l.Pairwise (fun a b => a.ts ≤ b.ts)) :
    ∀ x ∈ l.dropWhile (fun e => decide (e.ts < t)), t ≤ x.ts := by
  induction l with
  | nil => simp [List.dropWhile]
  | cons a rest ih =>
    intro x hx
    rw [List.dropWhile_cons] at hx
    split at hx
    · exact ih (List.Pairwise.sublist (List.sublist_cons_self a rest) hs) x hx
    · rename_i ha
      have ha' : ¬ a.ts < t := by simpa using ha
      rcases List.mem_cons.mp hx with h | h
      · subst h; omega
      · have := (List.pairwise_cons.mp hs).1 x h
        omega

theorem sorted_takeWhile_sorted (p : Event → Bool) (l : List Event)
    (hs : l.Pairwise (fun a b => a.ts ≤ b.ts)) :
    (l.takeWhile p).Pairwise (fun a b => a.ts ≤ b.ts) :=
  List.Pairwise.sublist (List.takeWhile_sublist p) hs

theorem sorted_dropWhile_sorted (p : Event → Bool) (l : List Event)
    (hs : l.Pairwise (fun a b => a.ts ≤ b.ts)) :
    (l.dropWhile p).Pairwise (fun a b => a.ts ≤ b.ts) :=
  List.Pairwise.sublist (List.dropWhile_sublist p) hs

theorem windowBuckets_mem_range {L : Nat} (hL : 1 ≤ L) {l : List Event}
    (hs : l.Pairwise (fun a b => a.ts ≤ b.ts)) :
    ∀ b ∈ windowBuckets L l, ∀ x ∈ b,
      bucketStart b ≤ x.ts ∧ x.ts < bucketStart b + L := by
  induction l using windowBuckets.induct L with
  | case1 => simp [windowBuckets]
  | case2 e rest ih =>
    intro b hb x hx
    rw [windowBuckets] at hb
    rcases List.mem_cons.mp hb with h | h
    · subst h
      have hstart : bucketStart (e :: rest.takeWhile (fun x => decide (x.ts < e.ts + L))) = e.ts := rfl
      rw [hstart]
      rcases List.mem_cons.mp hx with h' | h'
      · subst h'; omega
      · have h1 : x.ts < e.ts + L := by
          simpa using List.mem_takeWhile_imp h'
        have h2 : e.ts ≤ x.ts :=
          (List.pairwise_cons.mp hs).1 x ((List.takeWhile_sublist _).subset h')
        exact ⟨h2, h1⟩
    · exact ih (sorted_dropWhile_sorted _ _ (List.pairwise_cons.mp hs).2) b h x hx

theorem windowBuckets_chain {L : Nat} {l : List Event}
    (hs : l.Pairwise (fun a b => a.ts ≤ b.ts)) :
    (windowBuckets L l).Chain' (fun b1 b2 => bucketStart b1 + L ≤ bucketStart b2) := by
  induction l using windowBuckets.induct L with
  | case1 => simp [windowBuckets]
  | case2 e rest ih =>
    rw [windowBuckets]
    rw [List.chain'_cons']
    constructor
    · intro b' hb'
      match hr : rest.dropWhile (fun x => decide (x.ts < e.ts + L)) with
      | [] => rw [hr] at hb'; simp [windowBuckets] at hb'
      | y :: ys =>
        rw [hr] at hb'
        rw [windowBuckets] at hb'
        simp only [List.head?_cons, Option.mem_def, Option.some.injEq] at hb'
        have hy : (decide (y.ts < e.ts + L)) = false := dropWhile_cons_head_false _ rest hr
        have hy' : e.ts + L ≤ y.ts := by simpa using hy
        rw [← hb']
        exact hy'
    · exact ih (sorted_dropWhile_sorted _ _ (List.pairwise_cons.mp hs).2)

theorem windowBuckets_filter {L : Nat} (hL : 1 ≤ L) {l : List Event}
    (hs : l.Pairwise (fun a b => a.ts ≤ b.ts)) :
    ∀ b ∈ windowBuckets L l,
      l.filter (fun e => decide (bucketStart b ≤ e.ts ∧ e.ts < bucketStart b + L)) = b := by
  induction l using windowBuckets.induct L with
  | case1 => simp [windowBuckets]
  | case2 e rest ih =>
    intro b hb
    have hrest : rest.Pairwise (fun a b => a.ts ≤ b.ts) := (List.pairwise_cons.mp hs).2
    rw [windowBuckets] at hb
    rcases List.mem_cons.mp hb with h | h
    · subst h
      have hstart : bucketStart (e :: rest.takeWhile (fun x => decide (x.ts < e.ts + L))) = e.ts := rfl
      rw [hstart]
      have hsplit : (e :: rest) = (e :: rest.takeWhile (fun x => decide (x.ts < e.ts + L))) ++
          rest.dropWhile (fun x => decide (x.ts < e.ts + L)) := by
        rw [List.cons_append, List.takeWhile_append_dropWhile]
      rw [hsplit, List.filter_append]
      have h1 : (e :: rest.takeWhile (fun x => decide (x.ts < e.ts + L))).filter
          (fun x => decide (e.ts ≤ x.ts ∧ x.ts < e.ts + L)) =
          (e :: rest.takeWhile (fun x => decide (x.ts < e.ts + L))) := by
        rw [List.filter_eq_self]
        intro a ha
        rcases List.mem_cons.mp ha with h' | h'
        · subst h'
          simp
          omega
        · have ha1 : a.ts < e.ts + L := by simpa using List.mem_takeWhile_imp h'
          have ha2 : e.ts ≤ a.ts :=
            (List.pairwise_cons.mp hs).1 a ((List.takeWhile_sublist _).subset h')
          simp
          omega
      have h2 : (rest.dropWhile (fun x => decide (x.ts < e.ts + L))).filter
          (fun x => decide (e.ts ≤ x.ts ∧ x.ts < e.ts + L)) = [] := by
        rw [List.filter_eq_nil_iff]
        intro a ha
        have := sorted_dropWhile_ge (e.ts + L) rest hrest a ha
        simp
        omega
      rw [h1, h2, List.append_nil]
    · have hb' := ih (sorted_dropWhile_sorted _ _ hrest) b h
      have hbne := windowBuckets_ne_nil h
      match hbs : b with
      | bh :: bt =>
        have hhead : bh ∈ rest.dropWhile (fun x => decide (x.ts < e.ts + L)) :=
          windowBuckets_mem_mem h bh (by simp)
        have hge : e.ts + L ≤ bh.ts := sorted_dropWhile_ge _ rest hrest bh hhead
        have hstart : bucketStart (bh :: bt) = bh.ts := rfl
        rw [hstart] at hb' ⊢
        have hnil : (e :: rest.takeWhile (fun x => decide (x.ts < e.ts + L))).filter
            (fun x => decide (bh.ts ≤ x.ts ∧ x.ts < bh.ts + L)) = [] := by
          rw [List.filter_eq_nil_iff]
          intro x hx
          rcases List.mem_cons.mp hx with h' | h'
          · subst h'
            simp
            omega
          · have h1 : x.ts < e.ts + L := by simpa using List.mem_takeWhile_imp h'
            simp
            omega
        have hsplit : (e :: rest) = (e :: rest.takeWhile (fun x => decide (x.ts < e.ts + L))) ++
            rest.dropWhile (fun x => decide (x.ts < e.ts + L)) := by
          rw [List.cons_append, List.takeWhile_append_dropWhile]
        rw [hsplit, List.filter_append, hnil, List.nil_append]
        exact hb'

theorem windowStatsOf_start (cap L : Nat) (scores : String → ℚ) (b : List Event)
    (st : SeenState) : (windowStatsOf cap L scores b st).1.window_start = bucketStart b := rfl

theorem windowStatsOf_end (cap L : Nat) (scores : String → ℚ) (b : List Event)
    (st : SeenState) :
    (windowStatsOf cap L scores b st).1.window_end = bucketStart b + L := rfl

theorem windowStatsOf_qpm (cap L : Nat) (scores : String → ℚ) (b : List Event)
    (st : SeenState) :
    (windowStatsOf cap L scores b st).1.queries_per_min = (b.length : ℚ) / (L : ℚ) := rfl

theorem statsPass_map_start_end (cap L : Nat) (scores : String → ℚ) :
    ∀ (bs : List (List Event)) (st : SeenState),
      (statsPass cap L scores bs st).map (fun w => (w.window_start, w.window_end)) =
        bs.map (fun b => (bucketStart b, bucketStart b + L)) := by
  intro bs
  induction bs with
  | nil => intro st; rfl
  | cons b bs ih =>
    intro st
    simp only [statsPass, List.map_cons, windowStatsOf_start, windowStatsOf_end, ih]

theorem broadcast_start_end (p : ℚ) (ws : List WindowStats) :
    (ws.map (fun w => { w with periodicity_score := p })).map
        (fun w => (w.window_start, w.window_end)) =
      ws.map (fun w => (w.window_start, w.window_end)) := by
  induction ws with
  | nil => rfl
  | cons w ws ih => simp only [List.map_cons, ih]

theorem aggregate_map_start_end (scores : String → ℚ) (L : Nat) (events : List Event)
    (hne : events ≠ []) :
    (aggregate_events_to_windows scores L events).map (fun w => (w.window_start, w.window_end)) =
      (windowBuckets L (sortEvents events)).map (fun b => (bucketStart b, bucketStart b + L)) := by
  unfold aggregate_events_to_windows
  rw [if_neg (by simpa using hne)]
  rw [broadcast_start_end, statsPass_map_start_end]

theorem sortEvents_sorted (events : List Event) :
    (sortEvents events).Pairwise (fun a b => a.ts ≤ b.ts) := by
  haveI : IsTotal Event (fun a b => a.ts ≤ b.ts) := ⟨fun a b => Nat.le_total a.ts b.ts⟩
  haveI : IsTrans Event (fun a b => a.ts ≤ b.ts) := ⟨fun _ _ _ hab hbc => le_trans hab hbc⟩
  exact List.sorted_insertionSort (fun a b : Event => a.ts ≤ b.ts) events

theorem sortEvents_perm (events : List Event) : (sortEvents events).Perm events :=
  List.perm_insertionSort (fun a b : Event => a.ts ≤ b.ts) events

/-- C1: for every non-empty batch of events (in any initial order) and any
window length of at least one minute, the aggregator returns windows in
strictly increasing `window_start` order, with `window_end = window_start +
L`; the output windows correspond one-to-one, in order, with the event
buckets; each bucket holds exactly (as a multiset) the input events whose
timestamp lies in `[window_start, window_end)`; and the buckets partition
the input events with none dropped and none double-counted. -/
theorem c1_aggregator_partition (scores : String → ℚ) (L : Nat) (events : List Event)
    (hL : 1 ≤ L) (hne : events ≠ []) :
    ((aggregate_events_to_windows scores L events).map WindowStats.window_start).Chain'
        (· < ·) ∧
    ((aggregate_events_to_windows scores L events).map
        (fun w => (w.window_start, w.window_end)) =
      (windowBuckets L (sortEvents events)).map
        (fun b => (bucketStart b, bucketStart b + L))) ∧
    (∀ b ∈ windowBuckets L (sortEvents events),
      b.Perm (events.filter
        (fun e => decide (bucketStart b ≤ e.ts ∧ e.ts < bucketStart b + L)))) ∧
    ((windowBuckets L (sortEvents events)).flatten).Perm events := by
  have hsorted := sortEvents_sorted events
  have hperm := sortEvents_perm events
  refine ⟨?_, aggregate_map_start_end scores L events hne, ?_, ?_⟩
  · have hmap := aggregate_map_start_end scores L events hne
    have h1 : (aggregate_events_to_windows scores L events).map WindowStats.window_start =
        ((aggregate_events_to_windows scores L events).map
          (fun w => (w.window_start, w.window_end))).map Prod.fst := by
      rw [List.map_map]
      rfl
    rw [h1, hmap, List.map_map]
    have h2 : (Prod.fst ∘ fun b => (bucketStart b, bucketStart b + L)) = bucketStart := rfl
    rw [h2]
    rw [List.chain'_map]
    exact (windowBuckets_chain hsorted).imp (fun h => by omega)
  · intro b hb
    have hfe := windowBuckets_filter hL hsorted b hb
    have h := hperm.filter (fun e => decide (bucketStart b ≤ e.ts ∧ e.ts < bucketStart b + L))
    rw [hfe] at h
    exact h
  · rw [windowBuckets_flatten]
    exact hperm

/-- Concrete instantiation of `c1_aggregator_partition`: a two-event batch
given out of order with a five-minute window. -/
theorem c1_aggregator_partition_witness :
    (1 ≤ 5 ∧ ([⟨7, "b", "NOERROR"⟩, ⟨0, "a", "NXDOMAIN"⟩] : List Event) ≠ []) ∧
    (((aggregate_events_to_windows (fun _ => 0) 5
          [⟨7, "b", "NOERROR"⟩, ⟨0, "a", "NXDOMAIN"⟩]).map
        WindowStats.window_start).Chain' (· < ·) ∧
      ((aggregate_events_to_windows (fun _ => 0) 5
          [⟨7, "b", "NOERROR"⟩, ⟨0, "a", "NXDOMAIN"⟩]).map
          (fun w => (w.window_start, w.window_end)) =
        (windowBuckets 5 (sortEvents [⟨7, "b", "NOERROR"⟩, ⟨0, "a", "NXDOMAIN"⟩])).map
          (fun b => (bucketStart b, bucketStart b + 5))) ∧
      (∀ b ∈ windowBuckets 5 (sortEvents [⟨7, "b", "NOERROR"⟩, ⟨0, "a", "NXDOMAIN"⟩]),
        b.Perm (([⟨7, "b", "NOERROR"⟩, ⟨0, "a", "NXDOMAIN"⟩] : List Event).filter
          (fun e => decide (bucketStart b ≤ e.ts ∧ e.ts < bucketStart b + 5)))) ∧
      ((windowBuckets 5 (sortEvents [⟨7, "b", "NOERROR"⟩, ⟨0, "a", "NXDOMAIN"⟩])).flatten).Perm
        [⟨7, "b", "NOERROR"⟩, ⟨0, "a", "NXDOMAIN"⟩]) :=
  ⟨⟨by decide, by decide⟩,
   c1_aggregator_partition (fun _ => 0) 5 [⟨7, "b", "NOERROR"⟩, ⟨0, "a", "NXDOMAIN"⟩]
     (by decide) (by decide)⟩

/-! ## Periodicity score -/

theorem periodicity_score_replicate (n : Nat) (c : ℚ) :
    periodicity_score (List.replicate n c) = 0 := by
  by_cases hn : n < 4
  · simp only [periodicity_score, List.length_replicate]
    rw [if_pos hn]
  · simp only [periodicity_score, List.length_replicate]
    rw [if_neg hn]
    have hn0 : (n : ℚ) ≠ 0 := Nat.cast_ne_zero.mpr (by omega)
    have hm : (List.replicate n c).sum / (n : ℚ) = c := by
      rw [List.sum_replicate, nsmul_eq_mul]
      field_simp
    simp only [hm, List.map_replicate, sub_self]
    have hall : ((List.replicate n (0 : ℚ)).all (fun x => decide (|x| ≤ allcloseAtol))) = true := by
      simp only [List.all_eq_true]
      intro x hx
      rw [List.eq_of_mem_replicate hx]
      simp only [abs_zero, decide_eq_true_eq, allcloseAtol]
      norm_num
    rw [if_pos hall]

theorem broadcast_qpm (p : ℚ) (ws : List WindowStats) :
    (ws.map (fun w => { w with periodicity_score := p })).map WindowStats.queries_per_min =
      ws.map WindowStats.queries_per_min := by
  induction ws with
  | nil => rfl
  | cons w ws ih => simp only [List.map_cons, ih]

theorem aggregate_eq_broadcast (scores : String → ℚ) (L : Nat) (events : List Event)
    (hne : events.isEmpty = false) :
    aggregate_events_to_windows scores L events =
      (statsPass seenCapacity L scores (windowBuckets L (sortEvents events)) ⟨[], []⟩).map
        (fun w =>
          { w with
            periodicity_score :=
              periodicity_score
                ((statsPass seenCapacity L scores (windowBuckets L (sortEvents events))
                  ⟨[], []⟩).map WindowStats.queries_per_min) }) := by
  unfold aggregate_events_to_windows
  rw [if_neg (by simp [hne])]

/-- C8: the batch periodicity score is always non-negative; it equals 0
whenever the series has fewer than 4 entries, and on a constant
queries-per-minute series (zero variance); and the single score computed
over the batch's queries-per-minute series is assigned to every window of
the batch. -/
theorem c8_periodicity (values : List ℚ) (n : Nat) (c : ℚ)
    (scores : String → ℚ) (L : Nat) (events : List Event) :
    0 ≤ periodicity_score values ∧
    (values.length < 4 → periodicity_score values = 0) ∧
    periodicity_score (List.replicate n c) = 0 ∧
    (∀ w ∈ aggregate_events_to_windows scores L events,
      w.periodicity_score =
        periodicity_score ((aggregate_events_to_windows scores L events).map
          WindowStats.queries_per_min)) := by
  refine ⟨?_, ?_, periodicity_score_replicate n c, ?_⟩
  · simp only [periodicity_score]
    split
    · exact le_refl 0
    · split
      · exact le_refl 0
      · split
        · exact le_refl 0
        · exact le_max_left 0 _
  · intro h
    simp only [periodicity_score]
    rw [if_pos h]
  · intro w hw
    by_cases he : events.isEmpty
    · have : aggregate_events_to_windows scores L events = [] := by
        unfold aggregate_events_to_windows
        rw [if_pos he]
      rw [this] at hw
      cases hw
    · have hagg := aggregate_eq_broadcast scores L events (by simpa using he)
      rw [hagg] at hw ⊢
      rw [broadcast_qpm]
      rcases List.mem_map.mp hw with ⟨w', hw', rfl⟩
      rfl

/-- Concrete instantiation of `c8_periodicity`: a three-entry series, a
constant six-entry series, and a one-event batch. -/
theorem c8_periodicity_witness :
    0 ≤ periodicity_score [1, 2, 3] ∧
    ([(1 : ℚ), 2, 3].length < 4 ∧ periodicity_score [1, 2, 3] = 0) ∧
    periodicity_score (List.replicate 6 (7 : ℚ)) = 0 ∧
    (∀ w ∈ aggregate_events_to_windows (fun _ => 0) 5 [⟨0, "a", "NOERROR"⟩],
      w.periodicity_score =
        periodicity_score ((aggregate_events_to_windows (fun _ => 0) 5
          [⟨0, "a", "NOERROR"⟩]).map WindowStats.queries_per_min)) := by
  have h := c8_periodicity [1, 2, 3] 6 7 (fun _ => 0) 5 [⟨0, "a", "NOERROR"⟩]
  exact ⟨h.1, ⟨by decide, h.2.1 (by decide)⟩, h.2.2.1, h.2.2.2⟩

/-! ## Seen-domain history -/

theorem pushMax_full (cap : Nat) (q : List String) (x : String)
    (hq : q.length = cap) : pushMax cap q x = q.tail ++ [x] := by
  unfold pushMax
  rw [if_pos hq]

theorem pushMax_not_full (cap : Nat) (q : List String) (x : String)
    (hq : q.length ≠ cap) : pushMax cap q x = q ++ [x] := by
  unfold pushMax
  rw [if_neg hq]

theorem pushMax_length_le (cap : Nat) (hcap : 0 < cap) (q : List String) (x : String)
    (h : q.length ≤ cap) : (pushMax cap q x).length ≤ cap := by
  unfold pushMax
  split
  · rename_i hq
    simp only [List.length_append, List.length_tail, List.length_singleton]
    omega
  · rename_i hq
    simp only [List.length_append, List.length_singleton]
    omega

theorem processNewDomains_history_le (cap : Nat) (hcap : 0 < cap) :
    ∀ (ds : List String) (st : SeenState), st.history.length ≤ cap →
      (processNewDomains cap st ds).2.history.length ≤ cap := by
  intro ds
  induction ds with
  | nil => intro st h; exact h
  | cons d ds ih =>
    intro st h
    rw [processNewDomains]
    split
    · exact ih st h
    · exact ih ⟨pushMax cap st.history d, st.seenSet ++ [d]⟩
        (pushMax_length_le cap hcap st.history d h)

theorem processNewDomains_fresh (cap : Nat) :
    ∀ (ds : List String) (st : SeenState), ds.Nodup → (∀ d ∈ ds, d ∉ st.seenSet) →
      processNewDomains cap st ds =
        (ds.length, ⟨ds.foldl (pushMax cap) st.history, st.seenSet ++ ds⟩) := by
  intro ds
  induction ds with
  | nil => intro st _ _; simp [processNewDomains]
  | cons d ds ih =>
    intro st hnd hfresh
    rw [processNewDomains]
    rw [if_neg (hfresh d (by simp))]
    have hnd' := List.nodup_cons.mp hnd
    have hfresh' : ∀ x ∈ ds, x ∉ st.seenSet ++ [d] := by
      intro x hx
      simp only [List.mem_append, List.mem_singleton]
      push_neg
      refine ⟨hfresh x (by simp [hx]), ?_⟩
      intro hxd
      exact hnd'.1 (hxd ▸ hx)
    rw [ih ⟨pushMax cap st.history d, st.seenSet ++ [d]⟩ hnd'.2 hfresh']
    simp [List.append_assoc]

theorem foldl_pushMax_below (cap : Nat) :
    ∀ (ds h : List String), h.length + ds.length ≤ cap →
      ds.foldl (pushMax cap) h = h ++ ds := by
  intro ds
  induction ds with
  | nil => intro h _; simp
  | cons d ds ih =>
    intro h hlen
    simp only [List.length_cons] at hlen
    rw [List.foldl_cons, pushMax_not_full cap h d (by omega)]
    rw [ih (h ++ [d]) (by simp; omega)]
    simp

theorem foldl_pushMax_full (cap : Nat) (hcap : 0 < cap) :
    ∀ (ds h : List String), h.length = cap → ds.length ≤ cap →
      ds.foldl (pushMax cap) h = h.drop ds.length ++ ds := by
  intro ds
  induction ds with
  | nil => intro h _ _; simp
  | cons d ds ih =>
    intro h hh hlen
    simp only [List.length_cons] at hlen
    rw [List.foldl_cons, pushMax_full cap h d hh]
    have htl : (h.tail ++ [d]).length = cap := by
      simp only [List.length_append, List.length_tail, List.length_singleton]
      omega
    rw [ih (h.tail ++ [d]) htl (by omega)]
    have hd : (h.tail ++ [d]).drop ds.length = h.tail.drop ds.length ++ [d] := by
      rw [List.drop_append_of_le_length]
      rw [List.length_tail]
      omega
    rw [hd]
    have ht : h.tail.drop ds.length = h.drop (ds.length + 1) := by
      rw [← List.drop_one, List.drop_drop, Nat.add_comm]
    rw [ht]
    simp [List.append_assoc]

theorem evictIfFull_full (cap : Nat) (a : String) (t s : List String)
    (hh : (a :: t).length = cap) :
    evictIfFull cap ⟨a :: t, s⟩ = ⟨a :: t, s.erase a⟩ := by
  simp only [evictIfFull]
  rw [if_pos hh]

theorem seenStep_full (cap : Nat) (hcap : 0 < cap) (h s ds : List String)
    (a : String) (t : List String) (hh : h.length = cap) (hds : ds.length ≤ cap)
    (hnodup : ds.Nodup) (hfresh : ∀ d ∈ ds, d ∉ s)
    (hdrop : h.drop ds.length = a :: t) :
    seenStep cap ⟨h, s⟩ ds = ⟨h.drop ds.length ++ ds, (s ++ ds).erase a⟩ := by
  unfold seenStep
  rw [processNewDomains_fresh cap ds ⟨h, s⟩ hnodup hfresh]
  show evictIfFull cap ⟨ds.foldl (pushMax cap) h, s ++ ds⟩ = _
  rw [foldl_pushMax_full cap hcap ds h hh hds]
  rw [hdrop, List.cons_append]
  have hlen : (a :: (t ++ ds)).length = cap := by
    have h1 : (h.drop ds.length).length = h.length - ds.length := List.length_drop ..
    rw [hdrop] at h1
    simp only [List.length_cons, List.length_append] at h1 ⊢
    omega
  exact evictIfFull_full cap a (t ++ ds) (s ++ ds) hlen

theorem seenStep_first (cap : Nat) (a : String) (t : List String)
    (hnodup : (a :: t).Nodup) (hlen : (a :: t).length = cap) :
    seenStep cap ⟨[], []⟩ (a :: t) = ⟨a :: t, t⟩ := by
  unfold seenStep
  rw [processNewDomains_fresh cap (a :: t) ⟨[], []⟩ hnodup (by simp)]
  show evictIfFull cap ⟨(a :: t).foldl (pushMax cap) [], [] ++ (a :: t)⟩ = _
  rw [foldl_pushMax_below cap (a :: t) [] (by simpa using hlen.le)]
  simp only [List.nil_append]
  rw [evictIfFull_full cap a t (a :: t) hlen]
  rw [List.erase_cons_head]

theorem nm_injective : Function.Injective nm := by
  intro i j h
  have hd : List.replicate i 'a' = List.replicate j 'a' := congrArg String.data h
  have := congrArg List.length hd
  simpa using this

theorem dseq_length (a b : Nat) : (dseq a b).length = b := by
  simp [dseq]

theorem dseq_nodup (a b : Nat) : (dseq a b).Nodup :=
  List.Nodup.map nm_injective (List.nodup_range' a b)

theorem mem_dseq {j a b : Nat} : nm j ∈ dseq a b ↔ a ≤ j ∧ j < a + b := by
  simp only [dseq, List.mem_map]
  constructor
  · rintro ⟨i, hi, hij⟩
    obtain rfl := nm_injective hij
    exact List.mem_range'_1.mp hi
  · intro hj
    exact ⟨j, List.mem_range'_1.mpr hj, rfl⟩

theorem dseq_append (a b c : Nat) : dseq a b ++ dseq (a + b) c = dseq a (b + c) := by
  simp only [dseq, ← List.map_append]
  congr 1
  have h := List.range'_append a b c 1
  rw [one_mul] at h
  rw [h, Nat.add_comm c b]

theorem dseq_cons (a b : Nat) : dseq a (b + 1) = nm a :: dseq (a + 1) b := by
  simp only [dseq]
  rw [List.range'_succ, List.map_cons]

theorem dseq_drop (a b k : Nat) (hk : k ≤ b) :
    (dseq a b).drop k = dseq (a + k) (b - k) := by
  have h := dseq_append a k (b - k)
  rw [show k + (b - k) = b from by omega] at h
  rw [← h]
  rw [List.drop_append_of_le_length (by rw [dseq_length])]
  rw [List.drop_eq_nil_of_le (by rw [dseq_length]), List.nil_append]

theorem seenStep_three_windows (cap : Nat) (hcap : 5 ≤ cap) :
    (seenStep cap (seenStep cap (seenStep cap ⟨[], []⟩ (dseq 0 cap)) (dseq cap 2))
        (dseq (cap + 2) 2)).seenSet.length = cap + 1 := by
  have hc0 : 0 < cap := by omega
  have hW1 : dseq 0 cap = nm 0 :: dseq 1 (cap - 1) := by
    have h := dseq_cons 0 (cap - 1)
    rw [show cap - 1 + 1 = cap from by omega] at h
    simpa using h
  have h1 : seenStep cap ⟨[], []⟩ (dseq 0 cap) = ⟨dseq 0 cap, dseq 1 (cap - 1)⟩ := by
    conv_lhs => rw [hW1]
    rw [seenStep_first cap (nm 0) (dseq 1 (cap - 1))
      (by rw [← hW1]; exact dseq_nodup 0 cap)
      (by rw [← hW1, dseq_length])]
    rw [hW1]
  have hd2 : (dseq 0 cap).drop 2 = nm 2 :: dseq 3 (cap - 3) := by
    rw [dseq_drop 0 cap 2 (by omega)]
    have h := dseq_cons 2 (cap - 3)
    rw [show cap - 3 + 1 = cap - 2 from by omega] at h
    simpa using h
  have hfresh2 : ∀ d ∈ dseq cap 2, d ∉ dseq 1 (cap - 1) := by
    intro d hd
    simp only [dseq, List.mem_map] at hd
    rcases hd with ⟨i, hi, rfl⟩
    have hi' := List.mem_range'_1.mp hi
    rw [mem_dseq]
    omega
  have h2 : seenStep cap ⟨dseq 0 cap, dseq 1 (cap - 1)⟩ (dseq cap 2) =
      ⟨(dseq 0 cap).drop 2 ++ dseq cap 2,
        (dseq 1 (cap - 1) ++ dseq cap 2).erase (nm 2)⟩ := by
    have h := seenStep_full cap hc0 (dseq 0 cap) (dseq 1 (cap - 1)) (dseq cap 2)
      (nm 2) (dseq 3 (cap - 3)) (dseq_length 0 cap)
      (by rw [dseq_length]; omega) (dseq_nodup cap 2) hfresh2
      (by rw [dseq_length]; exact hd2)
    rw [dseq_length] at h
    exact h
  have hdrop0 : (dseq 0 cap).drop 2 = dseq 2 (cap - 2) := dseq_drop 0 cap 2 (by omega)
  have hlenH2 : (dseq 2 (cap - 2) ++ dseq cap 2).length = cap := by
    simp only [List.length_append, dseq_length]
    omega
  have hdrop3 : (dseq 2 (cap - 2) ++ dseq cap 2).drop 2 =
      nm 4 :: (dseq 5 (cap - 5) ++ dseq cap 2) := by
    rw [List.drop_append_of_le_length (by rw [dseq_length]; omega)]
    rw [dseq_drop 2 (cap - 2) 2 (by omega)]
    have h := dseq_cons 4 (cap - 5)
    rw [show cap - 5 + 1 = cap - 4 from by omega] at h
    have h44 : dseq (2 + 2) (cap - 2 - 2) = nm 4 :: dseq 5 (cap - 5) := by
      rw [show (2 : Nat) + 2 = 4 from rfl, show cap - 2 - 2 = cap - 4 from by omega]
      exact h
    rw [h44, List.cons_append]
  have hfresh3 : ∀ d ∈ dseq (cap + 2) 2,
      d ∉ (dseq 1 (cap - 1) ++ dseq cap 2).erase (nm 2) := by
    intro d hd hmem
    have hmem' := List.mem_of_mem_erase hmem
    simp only [dseq, List.mem_map] at hd
    rcases hd with ⟨i, hi, rfl⟩
    have hi' := List.mem_range'_1.mp hi
    rcases List.mem_append.mp hmem' with hL | hR
    · have := mem_dseq.mp hL
      omega
    · have := mem_dseq.mp hR
      omega
  have h3 : seenStep cap
      ⟨dseq 2 (cap - 2) ++ dseq cap 2, (dseq 1 (cap - 1) ++ dseq cap 2).erase (nm 2)⟩
      (dseq (cap + 2) 2) =
      ⟨(dseq 2 (cap - 2) ++ dseq cap 2).drop 2 ++ dseq (cap + 2) 2,
        ((dseq 1 (cap - 1) ++ dseq cap 2).erase (nm 2) ++ dseq (cap + 2) 2).erase (nm 4)⟩ := by
    have h := seenStep_full cap hc0 (dseq 2 (cap - 2) ++ dseq cap 2)
      ((dseq 1 (cap - 1) ++ dseq cap 2).erase (nm 2)) (dseq (cap + 2) 2)
      (nm 4) (dseq 5 (cap - 5) ++ dseq cap 2) hlenH2
      (by rw [dseq_length]; omega) (dseq_nodup (cap + 2) 2) hfresh3
      (by rw [dseq_length]; exact hdrop3)
    rw [dseq_length] at h
    exact h
  rw [h1, h2, hdrop0, h3]
  have hnm2mem : nm 2 ∈ dseq 1 (cap - 1) ++ dseq cap 2 :=
    List.mem_append_left _ (mem_dseq.mpr (by omega))
  have hlen_s2 : ((dseq 1 (cap - 1) ++ dseq cap 2).erase (nm 2)).length = cap := by
    rw [List.length_erase_of_mem hnm2mem]
    simp only [List.length_append, dseq_length]
    omega
  have hnm4mem : nm 4 ∈ (dseq 1 (cap - 1) ++ dseq cap 2).erase (nm 2) := by
    rw [List.mem_erase_of_ne (fun h => by have := nm_injective h; omega)]
    exact List.mem_append_left _ (mem_dseq.mpr (by omega))
  have hnm4mem' : nm 4 ∈ (dseq 1 (cap - 1) ++ dseq cap 2).erase (nm 2) ++ dseq (cap + 2) 2 :=
    List.mem_append_left _ hnm4mem
  show (((dseq 1 (cap - 1) ++ dseq cap 2).erase (nm 2) ++ dseq (cap + 2) 2).erase
      (nm 4)).length = cap + 1
  rw [List.length_erase_of_mem hnm4mem']
  simp only [List.length_append, dseq_length, hlen_s2]
  omega

theorem evictIfFull_history (cap : Nat) (s1 : SeenState) :
    (evictIfFull cap s1).history = s1.history := by
  unfold evictIfFull
  split
  · split <;> rfl
  · rfl

/-- C4 counterexample: starting a session from the empty seen-history and
processing three windows of fresh distinct domains (50,000, then 2, then 2),
the membership set reaches 50,001 entries — one more than the capacity of
the FIFO — because the entries silently discarded by the full deque's
appends are not the entry removed from the set after the window. -/
theorem c4_seen_history_counterexample :
    (seenStep seenCapacity
        (seenStep seenCapacity
          (seenStep seenCapacity ⟨[], []⟩ (dseq 0 seenCapacity))
          (dseq seenCapacity 2))
        (dseq (seenCapacity + 2) 2)).seenSet.length = seenCapacity + 1 :=
  seenStep_three_windows seenCapacity (by norm_num [seenCapacity])

/-- C4 (amended): the FIFO history never exceeds the capacity, and an
insertion into a full FIFO evicts exactly the oldest FIFO entry; but the
membership set is only trimmed after the window by erasing the FIFO's
current head (if present) — this per-window update is exactly the one the
aggregator performs — so the membership set is not kept in sync with the
FIFO and can exceed the capacity (see the counterexample). -/
theorem c4_seen_history_amended (cap : Nat) (hcap : 0 < cap) (st st' : SeenState)
    (ds : List String) (q s t : List String) (x a : String)
    (L : Nat) (scores : String → ℚ) (b : List Event)
    (hst : st.history.length ≤ cap) (hq : q.length = cap)
    (hat : (a :: t).length = cap) :
    (seenStep cap st ds).history.length ≤ cap ∧
    pushMax cap q x = q.tail ++ [x] ∧
    evictIfFull cap ⟨a :: t, s⟩ = ⟨a :: t, s.erase a⟩ ∧
    (windowStatsOf cap L scores b st').2 = seenStep cap st' ((b.map Event.domain).dedup) := by
  refine ⟨?_, pushMax_full cap q x hq, evictIfFull_full cap a t s hat, rfl⟩
  unfold seenStep
  rw [evictIfFull_history]
  exact processNewDomains_history_le cap hcap ds st hst

/-- Concrete instantiation of `c4_seen_history_amended` at capacity 1. -/
theorem c4_seen_history_amended_witness :
    (0 < 1 ∧ (⟨["q"], ["q"]⟩ : SeenState).history.length ≤ 1 ∧
      (["x"] : List String).length = 1 ∧ (("a" :: []) : List String).length = 1) ∧
    ((seenStep 1 ⟨["q"], ["q"]⟩ ["d"]).history.length ≤ 1 ∧
      pushMax 1 ["x"] "y" = (["x"] : List String).tail ++ ["y"] ∧
      evictIfFull 1 ⟨"a" :: [], ["s"]⟩ = ⟨"a" :: [], (["s"] : List String).erase "a"⟩ ∧
      (windowStatsOf 1 5 (fun _ => 0) [] ⟨[], []⟩).2 =
        seenStep 1 ⟨[], []⟩ ((([] : List Event).map Event.domain).dedup)) :=
  ⟨⟨by decide, by decide, by decide, by decide⟩,
   c4_seen_history_amended 1 (by decide) ⟨["q"], ["q"]⟩ ⟨[], []⟩ ["d"] ["x"] ["s"] []
     "y" "a" 5 (fun _ => 0) [] (by decide) (by decide) (by decide)⟩

/-! ## Privacy filter: case normalisation and glob matching -/

theorem isUpper_eq (c : Char) :
    c.isUpper = (decide (65 ≤ c.toNat) && decide (c.toNat ≤ 90)) := by
  unfold Char.isUpper
  congr 1

theorem toNat_ofNat_valid (n : Nat) (h : n.isValidChar) : (Char.ofNat n).toNat = n := by
  unfold Char.ofNat
  rw [dif_pos h]
  rfl

theorem toLower_not_upper (c : Char) : (Char.toLower c).isUpper = false := by
  simp only [Char.toLower]
  split
  · rename_i h
    have hv : (c.toNat + 32).isValidChar := Or.inl (by omega)
    rw [isUpper_eq, toNat_ofNat_valid _ hv]
    have h2 : ¬(c.toNat + 32 ≤ 90) := by omega
    simp [h2]
  · rename_i h
    rw [isUpper_eq]
    by_cases h1 : 65 ≤ c.toNat
    · have h2 : ¬(c.toNat ≤ 90) := fun h2 => h ⟨h1, h2⟩
      simp [h2]
    · simp [h1]

theorem normalizeDomain_no_upper (s : String) :
    ∀ c ∈ (normalizeDomain s).data, c.isUpper = false := by
  intro c hc
  have hdata : (normalizeDomain s).data = (stripCh s.data).map Char.toLower := rfl
  rw [hdata] at hc
  rcases List.mem_map.mp hc with ⟨c', _, rfl⟩
  exact toLower_not_upper c'

theorem matchStar_exists {f : List Char → Bool} :
    ∀ {s : List Char}, matchStar f s = true → ∃ t, t.IsSuffix s ∧ f t = true := by
  intro s
  induction s with
  | nil =>
    intro h
    exact ⟨[], List.suffix_refl [], h⟩
  | cons c s ih =>
    intro h
    rw [matchStar] at h
    rcases Bool.or_eq_true_iff.mp h with h1 | h1
    · exact ⟨c :: s, List.suffix_refl _, h1⟩
    · rcases ih h1 with ⟨t, ht, hf⟩
      exact ⟨t, ht.trans (List.suffix_cons c s), hf⟩

theorem globMatchF_literal_mem :
    ∀ (fuel : Nat) (pat s : List Char), globMatchF fuel pat s = true → '[' ∉ pat →
      ∀ c ∈ pat, c ≠ '*' → c ≠ '?' → c ∈ s := by
  intro fuel
  induction fuel with
  | zero =>
    intro pat s h
    simp [globMatchF] at h
  | succ fuel ih =>
    intro pat s h hb c hc hstar hq
    cases pat with
    | nil => simp at hc
    | cons p ps =>
      have hbps : '[' ∉ ps := fun hx => hb (List.mem_cons_of_mem _ hx)
      have hbp : p ≠ '[' := fun hx => hb (by rw [hx]; exact List.mem_cons_self _ _)
      simp only [globMatchF] at h
      split at h
      · rename_i heq
        simp at heq
      · rename_i ps' heq
        injection heq with heq1 heq2
        subst heq2
        have hc' : c ∈ ps := by
          rcases List.mem_cons.mp hc with h' | h'
          · exact absurd (h'.trans heq1) hstar
          · exact h'
        rcases matchStar_exists h with ⟨t, ht, hf⟩
        exact ht.subset (ih ps t hf hbps c hc' hstar hq)
      · rename_i ps' heq
        injection heq with heq1 heq2
        subst heq2
        have hc' : c ∈ ps := by
          rcases List.mem_cons.mp hc with h' | h'
          · exact absurd (h'.trans heq1) hq
          · exact h'
        cases s with
        | nil => simp at h
        | cons x s' => exact List.mem_cons_of_mem _ (ih ps s' h hbps c hc' hstar hq)
      · rename_i ps' heq
        injection heq with heq1 heq2
        exact absurd heq1 hbp
      · rename_i p' ps' hne1 hne2 hne3 heq
        injection heq with heq1 heq2
        subst heq1
        subst heq2
        cases s with
        | nil => simp at h
        | cons x s' =>
          rcases Bool.and_eq_true_iff.mp h with ⟨hx, hrest⟩
          rcases List.mem_cons.mp hc with h' | h'
          · subst h'
            have : x = c := by simpa using hx
            rw [← this]
            exact List.mem_cons_self _ _
          · exact List.mem_cons_of_mem _ (ih ps s' hrest hbps c h' hstar hq)

theorem globMatch_literal_mem (p s : List Char) (h : globMatch p s = true)
    (hb : '[' ∉ p) : ∀ c ∈ p, c ≠ '*' → c ≠ '?' → c ∈ s :=
  globMatchF_literal_mem (p.length + 1) p s h hb

/-! ## Monitor loop -/

theorem processRecord_eq (C : Collaborators) (privacy : LivePrivacyConfig) (r : Rec) :
    processRecord C privacy r =
      (if (normalizeDomain (r.domain.getD "") == "" ||
            (r.ts.getD (TS.junk "")).isEmptyStr) then none
       else if should_exclude_domain (normalizeDomain (r.domain.getD ""))
            privacy.exclude_patterns then none
       else some
         ({ ts := r.ts.getD (TS.junk ""),
            domain := redact_domain C.sha256hex (normalizeDomain (r.domain.getD ""))
              privacy.hash_domains privacy.hash_salt,
            rcode := r.rcode.getD "NOERROR", qtype := r.qtype.getD "A",
            risk_score := (C.score_domain (normalizeDomain (r.domain.getD ""))).risk_score,
            risk_label := (C.score_domain (normalizeDomain (r.domain.getD ""))).risk_label,
            reason_tags := joinBar (C.score_domain
              (normalizeDomain (r.domain.getD ""))).reason_tags },
          { ts := r.ts.getD (TS.junk ""), domain := normalizeDomain (r.domain.getD ""),
            rcode := r.rcode.getD "NOERROR",
            score := (C.score_domain (normalizeDomain (r.domain.getD ""))).risk_score })) := rfl

theorem runCycle_eq (C : Collaborators) (privacy : LivePrivacyConfig)
    (wm : Nat) (st : MonState) (recs : List Rec) :
    runCycle C privacy wm st recs =
      (if recs.isEmpty then .ok st
       else
         match toEvents (st.scored_events ++
             (recs.filterMap (processRecord C privacy)).map Prod.snd) with
         | none => .error "ValueError: invalid isoformat string"
         | some events =>
           .ok { scored_events := st.scored_events ++
                   (recs.filterMap (processRecord C privacy)).map Prod.snd,
                 emitted_windows := (emitWindows C (st.emitted_windows, st.alert_rows)
                   (aggregate_events_to_windows
                     (domainScores (st.scored_events ++
                       (recs.filterMap (processRecord C privacy)).map Prod.snd))
                     wm events)).1,
                 output_rows := st.output_rows ++
                   (recs.filterMap (processRecord C privacy)).map Prod.fst,
                 alert_rows := (emitWindows C (st.emitted_windows, st.alert_rows)
                   (aggregate_events_to_windows
                     (domainScores (st.scored_events ++
                       (recs.filterMap (processRecord C privacy)).map Prod.snd))
                     wm events)).2 }) := rfl

theorem processRecord_domains (C : Collaborators) (privacy : LivePrivacyConfig)
    (r : Rec) (row : CsvRow) (ev : ScoredEvent)
    (h : processRecord C privacy r = some (row, ev)) :
    row.domain = redact_domain C.sha256hex ev.domain privacy.hash_domains privacy.hash_salt ∧
    ev.domain = normalizeDomain (r.domain.getD "") := by
  rw [processRecord_eq] at h
  split at h
  · cases h
  · split at h
    · cases h
    · cases h
      exact ⟨rfl, rfl⟩

theorem processRecord_isSome (C : Collaborators) (privacy : LivePrivacyConfig) (r : Rec) :
    (processRecord C privacy r).isSome = true ↔
      (normalizeDomain (r.domain.getD "") ≠ "" ∧
        (r.ts.getD (TS.junk "")).isEmptyStr = false ∧
        should_exclude_domain (normalizeDomain (r.domain.getD ""))
          privacy.exclude_patterns = false) := by
  rw [processRecord_eq]
  split
  · rename_i hcond
    simp only [Option.isSome_none, Bool.false_eq_true, false_iff]
    rintro ⟨hd, hts, hex⟩
    rcases Bool.or_eq_true_iff.mp hcond with h | h
    · exact hd (by simpa using h)
    · exact absurd h (by simp [hts])
  · rename_i hcond
    simp only [Bool.or_eq_true, not_or, beq_iff_eq] at hcond
    split
    · rename_i hexc
      simp only [Option.isSome_none, Bool.false_eq_true, false_iff]
      rintro ⟨hd, hts, hex⟩
      exact absurd hexc (by simp [hex])
    · rename_i hexc
      simp only [Option.isSome_some, true_iff]
      exact ⟨hcond.1, by simpa using hcond.2, by simpa using hexc⟩

theorem runCycle_ok_lists (C : Collaborators) (privacy : LivePrivacyConfig)
    (wm : Nat) (st st' : MonState) (recs : List Rec)
    (h : runCycle C privacy wm st recs = .ok st') :
    st'.scored_events = st.scored_events ++
      (recs.filterMap (processRecord C privacy)).map Prod.snd ∧
    st'.output_rows = st.output_rows ++
      (recs.filterMap (processRecord C privacy)).map Prod.fst := by
  rw [runCycle_eq] at h
  split at h
  · rename_i he
    cases h
    have hnil : recs = [] := by simpa using he
    subst hnil
    simp
  · split at h
    · cases h
    · cases h
      exact ⟨rfl, rfl⟩

theorem emitWindows_invariant (C : Collaborators) :
    ∀ (ws : List WindowStats) (em : List Nat) (rows : List AlertRow),
      (rows.map AlertRow.window_end).Nodup → (∀ r ∈ rows, r.window_end ∈ em) →
      ((emitWindows C (em, rows) ws).2.map AlertRow.window_end).Nodup ∧
      (∀ r ∈ (emitWindows C (em, rows) ws).2,
        r.window_end ∈ (emitWindows C (em, rows) ws).1) := by
  intro ws
  induction ws with
  | nil => intro em rows h1 h2; exact ⟨h1, h2⟩
  | cons w ws ih =>
    intro em rows h1 h2
    by_cases hw : w.window_end ∈ em
    · have hstep : emitWindows C (em, rows) (w :: ws) = emitWindows C (em, rows) ws := by
        simp only [emitWindows, List.foldl_cons]
        rw [if_pos hw]
      rw [hstep]
      exact ih em rows h1 h2
    · have hstep : emitWindows C (em, rows) (w :: ws) =
          emitWindows C (em ++ [w.window_end], rows ++ [emitRow C w]) ws := by
        simp only [emitWindows, List.foldl_cons]
        rw [if_neg hw]
      rw [hstep]
      apply ih
      · rw [List.map_append, List.nodup_append]
        refine ⟨h1, by simp, ?_⟩
        intro a ha hb
        simp only [List.map_cons, List.map_nil, List.mem_singleton] at hb
        have : (emitRow C w).window_end = w.window_end := rfl
        rw [this] at hb
        rcases List.mem_map.mp ha with ⟨r, hr, rfl⟩
        exact hw (hb ▸ h2 r hr)
      · intro r hr
        rcases List.mem_append.mp hr with h' | h'
        · exact List.mem_append_left _ (h2 r h')
        · simp only [List.mem_singleton] at h'
          subst h'
          have : (emitRow C w).window_end = w.window_end := rfl
          rw [this]
          exact List.mem_append_right _ (by simp)

theorem runCycle_ok_alerts (C : Collaborators) (privacy : LivePrivacyConfig)
    (wm : Nat) (st st' : MonState) (recs : List Rec)
    (h : runCycle C privacy wm st recs = .ok st')
    (h1 : (st.alert_rows.map AlertRow.window_end).Nodup)
    (h2 : ∀ r ∈ st.alert_rows, r.window_end ∈ st.emitted_windows) :
    (st'.alert_rows.map AlertRow.window_end).Nodup ∧
    (∀ r ∈ st'.alert_rows, r.window_end ∈ st'.emitted_windows) := by
  rw [runCycle_eq] at h
  split at h
  · cases h
    exact ⟨h1, h2⟩
  · split at h
    · cases h
    · cases h
      exact emitWindows_invariant C _ st.emitted_windows st.alert_rows h1 h2

theorem runMonitorFrom_ok_lists (C : Collaborators) (privacy : LivePrivacyConfig)
    (wm : Nat) :
    ∀ (polls : List (List Rec)) (st st' : MonState),
      polls.foldlM (runCycle C privacy wm) st = .ok st' →
      st'.scored_events = st.scored_events ++
        ((polls.flatten).filterMap (processRecord C privacy)).map Prod.snd ∧
      st'.output_rows = st.output_rows ++
        ((polls.flatten).filterMap (processRecord C privacy)).map Prod.fst := by
  intro polls
  induction polls with
  | nil =>
    intro st st' h
    rw [List.foldlM_nil] at h
    cases h
    simp
  | cons p ps ih =>
    intro st st' h
    rw [List.foldlM_cons] at h
    cases hc : runCycle C privacy wm st p with
    | error e =>
      rw [hc] at h
      simp only [bind, Except.bind] at h
      cases h
    | ok sm =>
      rw [hc] at h
      simp only [bind, Except.bind] at h
      have hcyc := runCycle_ok_lists C privacy wm st sm p hc
      have hrest := ih sm st' h
      constructor
      · rw [hrest.1, hcyc.1]
        simp [List.filterMap_append, List.append_assoc]
      · rw [hrest.2, hcyc.2]
        simp [List.filterMap_append, List.append_assoc]

/-- C2: processing an event stream incrementally over several polls versus
as a single batch yields the same accumulated in-memory scored-event list
and the same persisted event rows, and therefore identical WindowStats from
the final re-aggregation pass: the per-window statistics are a deterministic
function of the accumulated events alone, independent of how the file's
appends were split across polls. -/
theorem c2_incremental_equals_batch (C : Collaborators) (privacy : LivePrivacyConfig)
    (wm : Nat) (polls : List (List Rec)) (s1 s2 : MonState)
    (h1 : runMonitor C privacy wm polls = .ok s1)
    (h2 : runMonitor C privacy wm [polls.flatten] = .ok s2) :
    s1.scored_events = s2.scored_events ∧
    s1.output_rows = s2.output_rows ∧
    sessionWindows wm s1 = sessionWindows wm s2 := by
  have e1 := runMonitorFrom_ok_lists C privacy wm polls initState s1 h1
  have e2 := runMonitorFrom_ok_lists C privacy wm [polls.flatten] initState s2 h2
  have hs : s1.scored_events = s2.scored_events := by
    rw [e1.1, e2.1]
    simp
  refine ⟨hs, ?_, ?_⟩
  · rw [e1.2, e2.2]
    simp
  · unfold sessionWindows
    rw [hs]

/-- Concrete instantiation of `c2_incremental_equals_batch`: two events
delivered in two polls versus in one. -/
theorem c2_incremental_equals_batch_witness :
    (runMonitor trivCollab defaultPrivacy 5 [[sampleRec 0 "a.com"], [sampleRec 7 "b.com"]] =
        .ok (okState (runMonitor trivCollab defaultPrivacy 5
          [[sampleRec 0 "a.com"], [sampleRec 7 "b.com"]])) ∧
      runMonitor trivCollab defaultPrivacy 5
          [List.flatten [[sampleRec 0 "a.com"], [sampleRec 7 "b.com"]]] =
        .ok (okState (runMonitor trivCollab defaultPrivacy 5
          [List.flatten [[sampleRec 0 "a.com"], [sampleRec 7 "b.com"]]]))) ∧
    ((okState (runMonitor trivCollab defaultPrivacy 5
        [[sampleRec 0 "a.com"], [sampleRec 7 "b.com"]])).scored_events =
      (okState (runMonitor trivCollab defaultPrivacy 5
        [List.flatten [[sampleRec 0 "a.com"], [sampleRec 7 "b.com"]]])).scored_events ∧
     (okState (runMonitor trivCollab defaultPrivacy 5
        [[sampleRec 0 "a.com"], [sampleRec 7 "b.com"]])).output_rows =
      (okState (runMonitor trivCollab defaultPrivacy 5
        [List.flatten [[sampleRec 0 "a.com"], [sampleRec 7 "b.com"]]])).output_rows ∧
     sessionWindows 5 (okState (runMonitor trivCollab defaultPrivacy 5
        [[sampleRec 0 "a.com"], [sampleRec 7 "b.com"]])) =
      sessionWindows 5 (okState (runMonitor trivCollab defaultPrivacy 5
        [List.flatten [[sampleRec 0 "a.com"], [sampleRec 7 "b.com"]]]))) :=
  ⟨⟨rfl, rfl⟩,
   c2_incremental_equals_batch trivCollab defaultPrivacy 5
     [[sampleRec 0 "a.com"], [sampleRec 7 "b.com"]] _ _ rfl rfl⟩

/-- C3: within one monitoring session, no window is emitted twice: the
alert rows appended over any number of poll cycles have pairwise distinct
`window_end` keys, because of the `emitted_windows` membership set. -/
theorem c3_unique_emission (C : Collaborators) (privacy : LivePrivacyConfig)
    (wm : Nat) (polls : List (List Rec)) (st : MonState)
    (h : runMonitor C privacy wm polls = .ok st) :
    (st.alert_rows.map AlertRow.window_end).Nodup := by
  have main : ∀ (ps : List (List Rec)) (s0 s1 : MonState),
      ps.foldlM (runCycle C privacy wm) s0 = .ok s1 →
      (s0.alert_rows.map AlertRow.window_end).Nodup →
      (∀ r ∈ s0.alert_rows, r.window_end ∈ s0.emitted_windows) →
      (s1.alert_rows.map AlertRow.window_end).Nodup := by
    intro ps
    induction ps with
    | nil =>
      intro s0 s1 h h1 _
      rw [List.foldlM_nil] at h
      cases h
      exact h1
    | cons p ps ih =>
      intro s0 s1 h h1 h2
      rw [List.foldlM_cons] at h
      cases hc : runCycle C privacy wm s0 p with
      | error e =>
        rw [hc] at h
        simp only [bind, Except.bind] at h
        cases h
      | ok sm =>
        rw [hc] at h
        simp only [bind, Except.bind] at h
        have hinv := runCycle_ok_alerts C privacy wm s0 sm p hc h1 h2
        exact ih sm s1 h hinv.1 hinv.2
  exact main polls initState st h (by simp [initState]) (by simp [initState])

/-- Concrete instantiation of `c3_unique_emission`: a second cycle that
recomputes the first cycle's window emits no duplicate row. -/
theorem c3_unique_emission_witness :
    runMonitor trivCollab defaultPrivacy 5 [[sampleRec 0 "a.com"], [sampleRec 600 "b.com"]] =
      .ok (okState (runMonitor trivCollab defaultPrivacy 5
        [[sampleRec 0 "a.com"], [sampleRec 600 "b.com"]])) ∧
    ((okState (runMonitor trivCollab defaultPrivacy 5
        [[sampleRec 0 "a.com"], [sampleRec 600 "b.com"]])).alert_rows.map
      AlertRow.window_end).Nodup :=
  ⟨rfl,
   c3_unique_emission trivCollab defaultPrivacy 5
     [[sampleRec 0 "a.com"], [sampleRec 600 "b.com"]] _ rfl⟩

/-- C5: the redaction transform is `"sha256:"` plus the first 20 hex
characters of the digest of `salt ++ ":" ++ domain` when hashing is enabled
and the identity when disabled; every accepted event's persisted row
carries the redacted (normalised) domain while its in-memory entry carries
the original unredacted (normalised) domain; and over a whole session the
persisted rows' domains are exactly the redactions of the in-memory
entries' domains. -/
theorem c5_redaction_storage_vs_memory (sha : String → String) (d salt : String)
    (C : Collaborators) (privacy : LivePrivacyConfig) (r : Rec) (row : CsvRow)
    (ev : ScoredEvent) (wm : Nat) (polls : List (List Rec)) (st : MonState)
    (hrec : processRecord C privacy r = some (row, ev))
    (hrun : runMonitor C privacy wm polls = .ok st) :
    redact_domain sha d true salt = "sha256:" ++ takeStr 20 (sha (salt ++ ":" ++ d)) ∧
    redact_domain sha d false salt = d ∧
    row.domain = redact_domain C.sha256hex ev.domain privacy.hash_domains privacy.hash_salt ∧
    ev.domain = normalizeDomain (r.domain.getD "") ∧
    st.output_rows.map CsvRow.domain = st.scored_events.map
      (fun e => redact_domain C.sha256hex e.domain privacy.hash_domains privacy.hash_salt) := by
  have hpr := processRecord_domains C privacy r row ev hrec
  have hlists := runMonitorFrom_ok_lists C privacy wm polls initState st hrun
  refine ⟨rfl, rfl, hpr.1, hpr.2, ?_⟩
  rw [hlists.1, hlists.2]
  simp only [initState, List.nil_append, List.map_map]
  apply List.map_congr_left
  intro pr hpr'
  rcases List.mem_filterMap.mp hpr' with ⟨r', _, hr'⟩
  exact (processRecord_domains C privacy r' pr.1 pr.2 hr').1

/-- Concrete instantiation of `c5_redaction_storage_vs_memory`. -/
theorem c5_redaction_storage_vs_memory_witness :
    (processRecord trivCollab defaultPrivacy (sampleRec 0 " ExAmple.COM ") =
        some ({ ts := TS.valid 0, domain := "example.com", rcode := "NOERROR", qtype := "A",
                risk_score := 50, risk_label := "Normal", reason_tags := "len" },
              { ts := TS.valid 0, domain := "example.com", rcode := "NOERROR", score := 50 }) ∧
      runMonitor trivCollab defaultPrivacy 5 [[sampleRec 0 "a.com"]] =
        .ok (okState (runMonitor trivCollab defaultPrivacy 5 [[sampleRec 0 "a.com"]]))) ∧
    (redact_domain (fun _ => "0123456789abcdef0123456789abcdef") "d" true "salt" =
        "sha256:" ++ takeStr 20 ((fun _ : String => "0123456789abcdef0123456789abcdef")
          ("salt" ++ ":" ++ "d")) ∧
      redact_domain (fun _ => "0123456789abcdef0123456789abcdef") "d" false "salt" = "d" ∧
      ({ ts := TS.valid 0, domain := "example.com", rcode := "NOERROR", qtype := "A",
         risk_score := 50, risk_label := "Normal",
         reason_tags := "len" } : CsvRow).domain =
        redact_domain trivCollab.sha256hex
          ({ ts := TS.valid 0, domain := "example.com", rcode := "NOERROR",
             score := 50 } : ScoredEvent).domain
          defaultPrivacy.hash_domains defaultPrivacy.hash_salt ∧
      ({ ts := TS.valid 0, domain := "example.com", rcode := "NOERROR",
         score := 50 } : ScoredEvent).domain =
        normalizeDomain ((sampleRec 0 " ExAmple.COM ").domain.getD "") ∧
      (okState (runMonitor trivCollab defaultPrivacy 5
          [[sampleRec 0 "a.com"]])).output_rows.map CsvRow.domain =
        (okState (runMonitor trivCollab defaultPrivacy 5
          [[sampleRec 0 "a.com"]])).scored_events.map
          (fun e => redact_domain trivCollab.sha256hex e.domain
            defaultPrivacy.hash_domains defaultPrivacy.hash_salt)) :=
  ⟨⟨by decide, rfl⟩,
   c5_redaction_storage_vs_memory (fun _ => "0123456789abcdef0123456789abcdef") "d" "salt"
     trivCollab defaultPrivacy (sampleRec 0 " ExAmple.COM ") _ _ 5 [[sampleRec 0 "a.com"]] _
     (by decide) rfl⟩

/-- C7: a well-formed JSON record whose timestamp string is unparsable is
not skipped: it passes the monitor's emptiness checks, is appended to the
in-memory list, and the next aggregation pass raises `ValueError` from
`datetime.fromisoformat`, aborting the cycle (modelled as `Except.error`) —
the monitoring session does not complete. -/
theorem c7_unparsable_timestamp_aborts_cycle :
    runMonitor trivCollab defaultPrivacy 5 [[junkRec]] =
      .error "ValueError: invalid isoformat string" := rfl

/-- C6: the tailing reader performs no truncation detection.  With a
3-character file and a stored offset of 10, the read returns no events and
leaves the offset at 10 — it does not reset the offset to 0 and re-read;
the same reader at offset 0 would have returned the file's record. -/
theorem c6_no_truncation_reset :
    readNewJsonl (fun _ => some (sampleRec 0 "a.com")) (some "abc") 10 = ([], 10) ∧
    readNewJsonl (fun _ => some (sampleRec 0 "a.com")) (some "abc") 0 =
      ([sampleRec 0 "a.com"], 3) := by
  exact ⟨by decide, by decide⟩

theorem purge_old_rows_csv_some_eq (fromiso : String → Option Int) (now : Int)
    (f : CsvFile) (col : String) (rd : Int) :
    purge_old_rows_csv fromiso now (some f) col rd =
      (if rd ≤ 0 then some f
       else if f.fieldnames.isEmpty then some ⟨[], []⟩
       else some ⟨f.fieldnames, f.rows.filter (fun row =>
         match fromiso (rowGet row col) with
         | none => true
         | some ts => now - rd * secondsPerDay ≤ ts)⟩) := rfl

/-- C9: the retention purger leaves a missing store unchanged; a
non-positive retention disables purging entirely; and with positive
retention a store with a header is rewritten with the same column list, in
order, keeping exactly the rows whose timestamp cell fails to parse (kept
fail-safe) or parses to an instant no older than `now` minus the retention
horizon. -/
theorem c9_retention_purge (fromiso : String → Option Int) (now : Int)
    (f : CsvFile) (col : String) (rd rd' : Int)
    (hrd : 0 < rd) (hrd' : rd' ≤ 0) (hf : f.fieldnames ≠ []) :
    purge_old_rows_csv fromiso now none col rd = none ∧
    purge_old_rows_csv fromiso now (some f) col rd' = some f ∧
    purge_old_rows_csv fromiso now (some f) col rd =
      some ⟨f.fieldnames, f.rows.filter (fun row =>
        match fromiso (rowGet row col) with
        | none => true
        | some ts => now - rd * secondsPerDay ≤ ts)⟩ := by
  refine ⟨rfl, ?_, ?_⟩
  · rw [purge_old_rows_csv_some_eq]
    rw [if_pos hrd']
  · rw [purge_old_rows_csv_some_eq]
    rw [if_neg (by omega)]
    rw [if_neg (by simpa using hf)]

/-- Concrete instantiation of `c9_retention_purge`, mirroring the spec's
1999-versus-2099 test: the stale row is dropped, the future row and an
unparsable row are kept, and the header survives. -/
theorem c9_retention_purge_witness :
    ((0 : Int) < 14 ∧ (-1 : Int) ≤ 0 ∧
      (⟨["ts", "domain"],
        [[("ts", "100"), ("domain", "old.example")],
         [("ts", "4000000000"), ("domain", "new.example")],
         [("ts", "junk"), ("domain", "odd.example")]]⟩ : CsvFile).fieldnames ≠ []) ∧
    (purge_old_rows_csv
        (fun v => if v = "100" then some 100
          else if v = "4000000000" then some 4000000000 else none)
        (2000000000 : Int) none "ts" 14 = none ∧
      purge_old_rows_csv
        (fun v => if v = "100" then some 100
          else if v = "4000000000" then some 4000000000 else none)
        (2000000000 : Int)
        (some ⟨["ts", "domain"],
          [[("ts", "100"), ("domain", "old.example")],
           [("ts", "4000000000"), ("domain", "new.example")],
           [("ts", "junk"), ("domain", "odd.example")]]⟩) "ts" (-1) =
        some ⟨["ts", "domain"],
          [[("ts", "100"), ("domain", "old.example")],
           [("ts", "4000000000"), ("domain", "new.example")],
           [("ts", "junk"), ("domain", "odd.example")]]⟩ ∧
      purge_old_rows_csv
        (fun v => if v = "100" then some 100
          else if v = "4000000000" then some 4000000000 else none)
        (2000000000 : Int)
        (some ⟨["ts", "domain"],
          [[("ts", "100"), ("domain", "old.example")],
           [("ts", "4000000000"), ("domain", "new.example")],
           [("ts", "junk"), ("domain", "odd.example")]]⟩) "ts" 14 =
        some ⟨["ts", "domain"],
          ([[("ts", "100"), ("domain", "old.example")],
            [("ts", "4000000000"), ("domain", "new.example")],
            [("ts", "junk"), ("domain", "odd.example")]] :
              List (List (String × String))).filter (fun row =>
            match (if rowGet row "ts" = "100" then some (100 : Int)
              else if rowGet row "ts" = "4000000000" then some 4000000000 else none) with
            | none => true
            | some ts => (2000000000 : Int) - 14 * secondsPerDay ≤ ts)⟩) :=
  ⟨⟨by decide, by decide, by decide⟩,
   c9_retention_purge
     (fun v => if v = "100" then some 100
       else if v = "4000000000" then some 4000000000 else none)
     2000000000
     ⟨["ts", "domain"],
       [[("ts", "100"), ("domain", "old.example")],
        [("ts", "4000000000"), ("domain", "new.example")],
        [("ts", "junk"), ("domain", "odd.example")]]⟩
     "ts" 14 (-1) (by decide) (by decide) (by decide)⟩

/-- C10 counterexample: the exclusion pattern `"[Aa]bc.com"` contains the
uppercase letter `A` and nevertheless matches the event domain `"Abc.com"`
after normalisation — fnmatch bracket classes can name uppercase letters
and still match a lowercased domain, refuting the claim that a pattern
containing an uppercase letter never matches any event. -/
theorem c10_uppercase_pattern_counterexample :
    ('A' ∈ "[Aa]bc.com".data ∧ 'A'.isUpper = true) ∧
    should_exclude_domain (normalizeDomain "Abc.com") (some ["[Aa]bc.com"]) = true :=
  ⟨⟨by decide, by decide⟩, by decide⟩

/-- C10 (amended): the monitor lowercases and whitespace-strips every
event's domain before exclusion matching, scoring, redaction and
aggregation, and silently drops any parsed record whose domain or timestamp
field is missing or empty; an exclusion pattern that contains an uppercase
letter and no bracket character class never matches any event's normalised
domain (a bracket class such as `"[Aa]bc.com"` can defeat this, as the
counterexample shows). -/
theorem c10_normalization_and_uppercase (C : Collaborators)
    (privacy : LivePrivacyConfig) (r : Rec) (row : CsvRow) (ev : ScoredEvent)
    (pat name : String)
    (hrec : processRecord C privacy r = some (row, ev))
    (hb : '[' ∉ pat.data) (hup : ∃ c ∈ pat.data, c.isUpper = true) :
    ev.domain = normalizeDomain (r.domain.getD "") ∧
    ((processRecord C privacy r).isSome = true ↔
      (normalizeDomain (r.domain.getD "") ≠ "" ∧
        (r.ts.getD (TS.junk "")).isEmptyStr = false ∧
        should_exclude_domain (normalizeDomain (r.domain.getD ""))
          privacy.exclude_patterns = false)) ∧
    fnmatch (normalizeDomain name) pat = false := by
  refine ⟨(processRecord_domains C privacy r row ev hrec).2,
    processRecord_isSome C privacy r, ?_⟩
  unfold fnmatch
  by_contra hM
  rw [Bool.not_eq_false] at hM
  rcases hup with ⟨c, hcp, hcup⟩
  have hstar : c ≠ '*' := by
    intro hx
    rw [hx] at hcup
    exact absurd hcup (by decide)
  have hq : c ≠ '?' := by
    intro hx
    rw [hx] at hcup
    exact absurd hcup (by decide)
  have hcs := globMatch_literal_mem pat.data (normalizeDomain name).data hM hb c hcp hstar hq
  have hlow := normalizeDomain_no_upper name c hcs
  rw [hlow] at hcup
  simp at hcup

/-- Concrete instantiation of `c10_normalization_and_uppercase`: a record
with a mixed-case padded domain and the bracket-free uppercase pattern
`"EXAMPLE.*"`. -/
theorem c10_normalization_and_uppercase_witness :
    (processRecord trivCollab defaultPrivacy (sampleRec 0 " ExAmple.COM ") =
        some ({ ts := TS.valid 0, domain := "example.com", rcode := "NOERROR", qtype := "A",
                risk_score := 50, risk_label := "Normal", reason_tags := "len" },
              { ts := TS.valid 0, domain := "example.com", rcode := "NOERROR", score := 50 }) ∧
      '[' ∉ "EXAMPLE.*".data ∧ (∃ c ∈ "EXAMPLE.*".data, c.isUpper = true)) ∧
    (({ ts := TS.valid 0, domain := "example.com", rcode := "NOERROR",
        score := 50 } : ScoredEvent).domain =
      normalizeDomain ((sampleRec 0 " ExAmple.COM ").domain.getD "") ∧
     ((processRecord trivCollab defaultPrivacy (sampleRec 0 " ExAmple.COM ")).isSome = true ↔
       (normalizeDomain ((sampleRec 0 " ExAmple.COM ").domain.getD "") ≠ "" ∧
         ((sampleRec 0 " ExAmple.COM ").ts.getD (TS.junk "")).isEmptyStr = false ∧
         should_exclude_domain (normalizeDomain ((sampleRec 0 " ExAmple.COM ").domain.getD ""))
           defaultPrivacy.exclude_patterns = false)) ∧
     fnmatch (normalizeDomain "some.Name") "EXAMPLE.*" = false) :=
  ⟨⟨by decide, by decide, by decide⟩,
   c10_normalization_and_uppercase trivCollab defaultPrivacy (sampleRec 0 " ExAmple.COM ")
     { ts := TS.valid 0, domain := "example.com", rcode := "NOERROR", qtype := "A",
       risk_score := 50, risk_label := "Normal", reason_tags := "len" }
     { ts := TS.valid 0, domain := "example.com", rcode := "NOERROR", score := 50 }
     "EXAMPLE.*" "some.Name" (by decide) (by decide) (by decide)⟩

end SentinelDNS
